import Mathlib

/-!
Verification development for the cubic-building thermal network script
(src/t03/t03CubeFB.py).  The script assembles a 12-branch / 8-node thermal
circuit as a DAE  C·dθ/dt = −(Aᵀ·G·A)·θ + Aᵀ·G·b + f, solves its steady state
by direct inversion, and integrates the reduced state-space model with
explicit and implicit Euler.  The floating-point arithmetic of the script is
embedded exactly over ℚ; the eigenvalue-based stability analysis is
embedded over ℝ.
-/

open Matrix

/-- Computable matrix inverse over ℚ via the adjugate; coincides with
the Mathlib inverse (see matInv_eq_inv). -/
def matInv {n : ℕ} (M : Matrix (Fin n) (Fin n) ℚ) : Matrix (Fin n) (Fin n) ℚ :=
  (M.det)⁻¹ • M.adjugate

theorem matInv_eq_inv {n : ℕ} (M : Matrix (Fin n) (Fin n) ℚ) : matInv M = M⁻¹ := by
  rw [matInv, Matrix.inv_def, Ring.inverse_eq_inv]

/-- Shallow embedding of the steady-state solve
θ = np.linalg.inv(A.T @ G @ A) @ (A.T @ G @ b + f)  (script line 686).
np.linalg.inv raises on a singular matrix; that failure is modelled by
none (the spec calls this failure SingularTopologyError). -/
def solveSteady {nq nth : ℕ} (A : Matrix (Fin nq) (Fin nth) ℚ)
    (G : Matrix (Fin nq) (Fin nq) ℚ) (b : Fin nq → ℚ) (f : Fin nth → ℚ) :
    Option (Fin nth → ℚ) :=
  if (Aᵀ * G * A).det = 0 then none
  else some (matInv (Aᵀ * G * A) *ᵥ ((Aᵀ * G) *ᵥ b + f))

/-- Explicit-Euler trajectory (script lines 845-848): an array of n columns,
column 0 the caller-supplied initial state, and for k in range(n-1)
temp_exp[:, k+1] = (I + dt·As) @ temp_exp[:, k] + dt·Bs @ u[:, k].
The step dt is used exactly as supplied, with no internal clamping. -/
def tempExp {m p : ℕ} (n : ℕ) (As : Matrix (Fin m) (Fin m) ℚ)
    (Bs : Matrix (Fin m) (Fin p) ℚ) (dt : ℚ) (u : ℕ → Fin p → ℚ)
    (init : Fin m → ℚ) : ℕ → Fin m → ℚ
  | 0 => init
  | k + 1 =>
      if k + 1 ≤ n - 1 then
        (1 + dt • As) *ᵥ tempExp n As Bs dt u init k + dt • (Bs *ᵥ u k)
      else tempExp n As Bs dt u init k

/-- One implicit-Euler step (script line 848):
θ ↦ np.linalg.inv(I - dt·As) @ (θ + dt·Bs @ u); the np.linalg.inv failure on
a singular (I - dt·As) is modelled by none (the spec calls it
IntegrationError). -/
def stepImp {m p : ℕ} (As : Matrix (Fin m) (Fin m) ℚ)
    (Bs : Matrix (Fin m) (Fin p) ℚ) (dt : ℚ) (th : Fin m → ℚ)
    (uk : Fin p → ℚ) : Option (Fin m → ℚ) :=
  if (1 - dt • As).det = 0 then none
  else some (matInv (1 - dt • As) *ᵥ (th + dt • (Bs *ᵥ uk)))

/-- Implicit-Euler trajectory (script lines 845-848), column k of temp_imp;
a failed step aborts the remaining trajectory. -/
def tempImp {m p : ℕ} (n : ℕ) (As : Matrix (Fin m) (Fin m) ℚ)
    (Bs : Matrix (Fin m) (Fin p) ℚ) (dt : ℚ) (u : ℕ → Fin p → ℚ)
    (init : Fin m → ℚ) : ℕ → Option (Fin m → ℚ)
  | 0 => some init
  | k + 1 =>
      if k + 1 ≤ n - 1 then
        (tempImp n As Bs dt u init k).bind (fun th => stepImp As Bs dt th (u k))
      else tempImp n As Bs dt u init k

/-- The builtin min of Python over a list (None on the empty list). -/
def listMin {α : Type} [LinearOrder α] : List α → Option α
  | [] => none
  | a :: t =>
      match listMin t with
      | none => some a
      | some m => some (min a m)

/-- An eigenvalue of a real square matrix. -/
def IsEigenvalue {m : ℕ} (M : Matrix (Fin m) (Fin m) ℝ) (mu : ℝ) : Prop :=
  ∃ v : Fin m → ℝ, v ≠ 0 ∧ M *ᵥ v = mu • v

/-- Stability analyzer (script line 766): dtmax = min(-2. / eig(As)), taking
the eigenvalue list returned by np.linalg.eig as input. -/
def dtmax {α : Type} [LinearOrderedField α] (eigs : List α) : Option α :=
  listMin (eigs.map (fun lam => -2 / lam))

namespace T03

/-! Exact rational embedding of the physical constants and assembled
matrices of the script (lines 43-115, 172-317, 533-558). -/

def lcube : ℚ := 3

def surfConcrete : ℚ := 5 * lcube ^ 2

def surfInsulation : ℚ := 5 * lcube ^ 2

def surfGlass : ℚ := lcube ^ 2

def condConcrete : ℚ := 1.4

def condInsulation : ℚ := 0.027

def condGlass : ℚ := 1.4

def widthConcrete : ℚ := 0.2

def widthInsulation : ℚ := 0.08

def widthGlass : ℚ := 0.004

def epsWLW : ℚ := 0.85

def epsGLW : ℚ := 0.90

def alphaWSW : ℚ := 0.25

def alphaGSW : ℚ := 0.38

def tauGSW : ℚ := 0.30

def sigmaSB : ℚ := 5.67e-8

def Fwg : ℚ := 1 / 5

def hIn : ℚ := 8

def hOut : ℚ := 25

def Tm : ℚ := 20 + 273

def GcdConcrete : ℚ := condConcrete / widthConcrete * surfConcrete

def GcdInsulation : ℚ := condInsulation / widthInsulation * surfInsulation

def GcdGlass : ℚ := condGlass / widthGlass * surfGlass

def GwOut : ℚ := hOut * surfConcrete

def GwIn : ℚ := hIn * surfConcrete

def GgOut : ℚ := hOut * surfGlass

def GgIn : ℚ := hIn * surfGlass

def GLW1 : ℚ := 4 * sigmaSB * Tm ^ 3 * epsWLW / (1 - epsWLW) * surfInsulation

def GLW12 : ℚ := 4 * sigmaSB * Tm ^ 3 * Fwg * surfInsulation

def GLW2 : ℚ := 4 * sigmaSB * Tm ^ 3 * epsGLW / (1 - epsGLW) * surfGlass

def GLW : ℚ := 1 / (1 / GLW1 + 1 / GLW12 + 1 / GLW2)

def airDensity : ℚ := 1.2

def airSpecificHeat : ℚ := 1000

def Va : ℚ := lcube ^ 3

def ACH : ℚ := 1

def VaDot : ℚ := ACH / 3600 * Va

def Gv : ℚ := airDensity * airSpecificHeat * VaDot

def Ggs : ℚ := 1 / (1 / GgOut + 1 / (2 * GcdGlass))

/-- Controller gain: the script assigns 1e4, then 1e-3, then finally 0
(lines 300-302); the value used for assembly is 0. -/
def Kp : ℚ := 0

/-- Incidence matrix (script lines 533-545). -/
def A : Matrix (Fin 12) (Fin 8) ℚ :=
  !![1, 0, 0, 0, 0, 0, 0, 0;
     -1, 1, 0, 0, 0, 0, 0, 0;
     0, -1, 1, 0, 0, 0, 0, 0;
     0, 0, -1, 1, 0, 0, 0, 0;
     0, 0, 0, -1, 1, 0, 0, 0;
     0, 0, 0, 0, -1, 1, 0, 0;
     0, 0, 0, 0, -1, 0, 1, 0;
     0, 0, 0, 0, 0, -1, 1, 0;
     0, 0, 0, 0, 0, 0, 0, 1;
     0, 0, 0, 0, 0, 1, 0, -1;
     0, 0, 0, 0, 0, 0, 1, 0;
     0, 0, 0, 0, 0, 0, 1, 0]

/-- Diagonal of the conductance matrix (script lines 555-558). -/
def gDiag : Fin 12 → ℚ :=
  ![GwOut, 2 * GcdConcrete, 2 * GcdConcrete, 2 * GcdInsulation,
    2 * GcdInsulation, GLW, GwIn, GgIn, Ggs, 2 * GcdGlass, Gv, Kp]

/-- Conductance matrix (script lines 555-558). -/
def G : Matrix (Fin 12) (Fin 12) ℚ := Matrix.diagonal gDiag

/-- Temperature-source vector of the steady-state check (script lines
669-671): 10 on branches 0, 8, 10 and the indoor set point tsp on branch 11
(the script uses tsp = 20). -/
def bss (tsp : ℚ) : Fin 12 → ℚ := ![10, 0, 0, 0, 0, 0, 0, 0, 10, 0, 10, tsp]

/-- Flow-source vector of the steady-state check (script line 673): zero. -/
def fss : Fin 8 → ℚ := fun _ => 0

/-- Input vector of the steady-state check (script line 702):
u = np.hstack([b[np.nonzero(b)], f[np.nonzero(f)]]). -/
def uss : List ℚ :=
  (List.ofFn (bss 20)).filter (fun x => x != 0) ++
    (List.ofFn fss).filter (fun x => x != 0)

/-- Temperature-source flag vector passed to the reducer (script lines
640-641). -/
def bFlag : Fin 12 → ℚ := ![1, 0, 0, 0, 0, 0, 0, 0, 1, 0, 1, 1]

/-- Flow-source flag vector passed to the reducer (script lines 643-644). -/
def fFlag : Fin 8 → ℚ := ![1, 0, 0, 0, 1, 0, 1, 1]

/-- Modelled from the spec: the reducer dm4bem.tc2ss is not under src/; per
spec sections 3 and 4.3 the input dimension of the reduced system (the
number of columns of Bs and Ds) is the count of flagged source positions
across b and f. -/
def nInputs : ℕ :=
  ((List.ofFn bFlag).filter (fun x => x != 0)).length +
    ((List.ofFn fFlag).filter (fun x => x != 0)).length

def Tset : ℚ := 20

def Qaux : ℚ := 0

/-- Input vector of the dynamic weather simulation (script lines 945-949,
with Ti = 20 and Qa = 0 as set on lines 928-929). -/
def uDyn (To Phit1 : ℕ → ℚ) (k : ℕ) : Fin 8 → ℚ :=
  ![To k, To k, To k, Tset,
    alphaWSW * surfConcrete * Phit1 k,
    tauGSW * alphaWSW * surfGlass * Phit1 k,
    Qaux,
    alphaGSW * surfGlass * Phit1 k]

end T03

/-! Theorems. -/

/-- C2: the steady-state solver computes exactly
θ_ss = (Aᵀ·G·A)⁻¹·(Aᵀ·G·b + f): for every assembled (A, G, b, f) with
Aᵀ·G·A invertible the returned temperature vector satisfies
(Aᵀ·G·A)·θ_ss = Aᵀ·G·b + f. -/
theorem solveSteady_correct {nq nth : ℕ} (A : Matrix (Fin nq) (Fin nth) ℚ)
    (G : Matrix (Fin nq) (Fin nq) ℚ) (b : Fin nq → ℚ) (f : Fin nth → ℚ)
    (hdet : (Aᵀ * G * A).det ≠ 0) :
    ∃ th, solveSteady A G b f = some th ∧
      (Aᵀ * G * A) *ᵥ th = (Aᵀ * G) *ᵥ b + f := by
  refine ⟨matInv (Aᵀ * G * A) *ᵥ ((Aᵀ * G) *ᵥ b + f), by rw [solveSteady, if_neg hdet], ?_⟩
  rw [matInv_eq_inv, Matrix.mulVec_mulVec,
    Matrix.mul_nonsing_inv _ (isUnit_iff_ne_zero.mpr hdet), Matrix.one_mulVec]

/-- Witness for C2: a 1-branch, 1-node network with conductance 2,
temperature source 3 and flow source 4; the steady state solves 2·θ = 10. -/
theorem solveSteady_correct_witness :
    ((!![(1 : ℚ)]ᵀ * !![(2 : ℚ)] * !![(1 : ℚ)]).det ≠ 0) ∧
      ∃ th, solveSteady !![(1 : ℚ)] !![(2 : ℚ)] ![3] ![4] = some th ∧
        (!![(1 : ℚ)]ᵀ * !![(2 : ℚ)] * !![(1 : ℚ)]) *ᵥ th =
          (!![(1 : ℚ)]ᵀ * !![(2 : ℚ)]) *ᵥ ![3] + ![4] := by
  have hdet : (!![(1 : ℚ)]ᵀ * !![(2 : ℚ)] * !![(1 : ℚ)]).det ≠ 0 := by
    norm_num [Matrix.det_fin_one, Matrix.mul_apply, Fin.sum_univ_succ]
  exact ⟨hdet, solveSteady_correct _ _ _ _ hdet⟩

/-- C9: if some node of the network has no incident branch, the assembled
Laplacian Aᵀ·G·A has a zero column, its determinant vanishes, and the
steady-state solve fails (np.linalg.inv raises; spec: SingularTopologyError). -/
theorem solveSteady_disconnected {nq nth : ℕ} (A : Matrix (Fin nq) (Fin nth) ℚ)
    (g : Fin nq → ℚ) (b : Fin nq → ℚ) (f : Fin nth → ℚ)
    (hdisc : ∃ j, ∀ k, A k j = 0) :
    solveSteady A (Matrix.diagonal g) b f = none := by
  obtain ⟨j, hj⟩ := hdisc
  have hcol : ∀ i, (Aᵀ * Matrix.diagonal g * A) i j = 0 := by
    intro i
    rw [Matrix.mul_apply]
    exact Finset.sum_eq_zero fun k _ => by rw [hj k, mul_zero]
  rw [solveSteady, if_pos (Matrix.det_eq_zero_of_column_eq_zero j hcol)]

/-- Witness for C9: a 1-branch, 2-node network whose node 1 touches no
branch; the steady-state solve returns none. -/
theorem solveSteady_disconnected_witness :
    (∃ j : Fin 2, ∀ k : Fin 1, !![(1 : ℚ), 0] k j = 0) ∧
      solveSteady !![(1 : ℚ), 0] (Matrix.diagonal ![5]) ![7] ![0, 0] = none := by
  have hdisc : ∃ j : Fin 2, ∀ k : Fin 1, !![(1 : ℚ), 0] k j = 0 := by
    refine ⟨1, fun k => ?_⟩
    fin_cases k
    norm_num
  exact ⟨hdisc, solveSteady_disconnected _ _ _ _ hdisc⟩

/-- C3: within the simulated range the explicit-Euler integrator advances
the state by exactly θ[k+1] = (I + dt·As)·θ[k] + dt·Bs·u[k], for an
arbitrary caller-chosen positive step dt: the step enters the update
exactly as supplied, with no internal clamping to the stability bound. -/
theorem tempExp_step {m p : ℕ} (n : ℕ) (As : Matrix (Fin m) (Fin m) ℚ)
    (Bs : Matrix (Fin m) (Fin p) ℚ) (dt : ℚ) (u : ℕ → Fin p → ℚ)
    (init : Fin m → ℚ) (k : ℕ) (_hdt : 0 < dt) (hk : k + 1 ≤ n - 1) :
    tempExp n As Bs dt u init (k + 1) =
      (1 + dt • As) *ᵥ tempExp n As Bs dt u init k + dt • (Bs *ᵥ u k) := by
  rw [tempExp, if_pos hk]

/-- Witness for C3 at a concrete 1-state system, with a step (dt = 7000)
far above any stability bound, showing the update is applied unclamped. -/
theorem tempExp_step_witness :
    ((0 : ℚ) < 7000 ∧ 0 + 1 ≤ 3 - 1) ∧
      tempExp 3 !![(-1 : ℚ)] !![(1 : ℚ)] 7000 (fun _ => ![1]) ![0] (0 + 1) =
        (1 + (7000 : ℚ) • !![(-1 : ℚ)]) *ᵥ tempExp 3 !![(-1 : ℚ)] !![(1 : ℚ)] 7000
            (fun _ => ![1]) ![0] 0 + (7000 : ℚ) • (!![(1 : ℚ)] *ᵥ ![1]) := by
  exact ⟨⟨by norm_num, by norm_num⟩,
    tempExp_step 3 _ _ 7000 _ _ 0 (by norm_num) (by norm_num)⟩

/-- When the implicit-step matrix is nonsingular, every implicit-Euler
column is defined. -/
theorem tempImp_isSome {m p : ℕ} (n : ℕ) (As : Matrix (Fin m) (Fin m) ℚ)
    (Bs : Matrix (Fin m) (Fin p) ℚ) (dt : ℚ) (u : ℕ → Fin p → ℚ)
    (init : Fin m → ℚ) (hdet : (1 - dt • As).det ≠ 0) (k : ℕ) :
    ∃ w, tempImp n As Bs dt u init k = some w := by
  induction k with
  | zero => exact ⟨init, rfl⟩
  | succ k ih =>
      obtain ⟨w, hw⟩ := ih
      by_cases hk : k + 1 ≤ n - 1
      · refine ⟨matInv (1 - dt • As) *ᵥ (w + dt • (Bs *ᵥ u k)), ?_⟩
        rw [tempImp, if_pos hk, hw]
        show stepImp As Bs dt w (u k) = _
        rw [stepImp, if_neg hdet]
      · exact ⟨w, by rw [tempImp, if_neg hk]; exact hw⟩

/-- C4: within the simulated range the implicit-Euler integrator advances
the state by θ[k+1] = (I − dt·As)⁻¹·(θ[k] + dt·Bs·u[k]) — equivalently
(I − dt·As)·θ[k+1] = θ[k] + dt·Bs·u[k] — whenever (I − dt·As) is
invertible, and the step fails (np.linalg.inv raises; spec:
IntegrationError) when (I − dt·As) is singular. -/
theorem tempImp_step {m p : ℕ} (n : ℕ) (As : Matrix (Fin m) (Fin m) ℚ)
    (Bs : Matrix (Fin m) (Fin p) ℚ) (dt : ℚ) (u : ℕ → Fin p → ℚ)
    (init : Fin m → ℚ) (k : ℕ) (hk : k + 1 ≤ n - 1) :
    ((1 - dt • As).det ≠ 0 →
      ∃ w v, tempImp n As Bs dt u init k = some w ∧
        tempImp n As Bs dt u init (k + 1) = some v ∧
        (1 - dt • As) *ᵥ v = w + dt • (Bs *ᵥ u k)) ∧
    ((1 - dt • As).det = 0 → tempImp n As Bs dt u init (k + 1) = none) := by
  constructor
  · intro hdet
    obtain ⟨w, hw⟩ := tempImp_isSome n As Bs dt u init hdet k
    refine ⟨w, matInv (1 - dt • As) *ᵥ (w + dt • (Bs *ᵥ u k)), hw, ?_, ?_⟩
    · rw [tempImp, if_pos hk, hw]
      show stepImp As Bs dt w (u k) = _
      rw [stepImp, if_neg hdet]
    · rw [matInv_eq_inv, Matrix.mulVec_mulVec,
        Matrix.mul_nonsing_inv _ (isUnit_iff_ne_zero.mpr hdet), Matrix.one_mulVec]
  · intro hdet
    rw [tempImp, if_pos hk]
    cases htk : tempImp n As Bs dt u init k with
    | none => rfl
    | some w =>
        show stepImp As Bs dt w (u k) = none
        rw [stepImp, if_pos hdet]

/-- Witness for C4: a nonsingular instance (dt = 2, As = [[-1]]) where the
step is taken and solves the implicit equation, and a singular instance
(dt = 1, As = [[1]], so I − dt·As = [[0]]) where the step fails. -/
theorem tempImp_step_witness :
    (0 + 1 ≤ 3 - 1 ∧ (1 - (2 : ℚ) • !![(-1 : ℚ)]).det ≠ 0 ∧
      ∃ w v, tempImp 3 !![(-1 : ℚ)] !![(1 : ℚ)] 2 (fun _ => ![3]) ![5] 0 = some w ∧
        tempImp 3 !![(-1 : ℚ)] !![(1 : ℚ)] 2 (fun _ => ![3]) ![5] (0 + 1) = some v ∧
        (1 - (2 : ℚ) • !![(-1 : ℚ)]) *ᵥ v = w + (2 : ℚ) • (!![(1 : ℚ)] *ᵥ ![3])) ∧
    ((1 - (1 : ℚ) • !![(1 : ℚ)]).det = 0 ∧
      tempImp 3 !![(1 : ℚ)] !![(1 : ℚ)] 1 (fun _ => ![3]) ![5] (0 + 1) = none) := by
  have h1 : (1 - (2 : ℚ) • !![(-1 : ℚ)]).det ≠ 0 := by
    norm_num [Matrix.det_fin_one, Matrix.sub_apply, Matrix.smul_apply, Matrix.one_apply]
  have h2 : (1 - (1 : ℚ) • !![(1 : ℚ)]).det = 0 := by
    norm_num [Matrix.det_fin_one, Matrix.sub_apply, Matrix.smul_apply, Matrix.one_apply]
  exact ⟨⟨by norm_num, h1, (tempImp_step 3 _ _ 2 _ _ 0 (by norm_num)).1 h1⟩,
    h2, (tempImp_step 3 _ _ 1 _ _ 0 (by norm_num)).2 h2⟩

theorem listMin_mem {α : Type} [LinearOrder α] :
    ∀ {l : List α} {d : α}, listMin l = some d → d ∈ l := by
  intro l
  induction l with
  | nil => intro d h; simp [listMin] at h
  | cons a t ih =>
      intro d h
      rw [listMin] at h
      cases ht : listMin t with
      | none => rw [ht] at h; cases h; exact List.mem_cons_self a t
      | some m =>
          rw [ht] at h
          cases h
          rcases min_choice a m with hm | hm
          · rw [hm]; exact List.mem_cons_self a t
          · rw [hm]; exact List.mem_cons_of_mem a (ih ht)

theorem listMin_le {α : Type} [LinearOrder α] :
    ∀ {l : List α} {d : α}, listMin l = some d → ∀ a ∈ l, d ≤ a := by
  intro l
  induction l with
  | nil => intro d h; simp [listMin] at h
  | cons a t ih =>
      intro d h x hx
      rw [listMin] at h
      cases ht : listMin t with
      | none =>
          rw [ht] at h
          cases h
          cases t with
          | nil => rcases List.mem_singleton.mp hx with rfl; exact le_refl x
          | cons b s =>
              rw [listMin] at ht
              cases hbs : listMin s <;> simp [hbs] at ht
      | some m =>
          rw [ht] at h
          cases h
          rcases List.mem_cons.mp hx with hxa | hxt
          · rw [hxa]; exact min_le_left a m
          · exact le_trans (min_le_right a m) (ih ht x hxt)

theorem listMin_isSome {α : Type} [LinearOrder α] {l : List α} (h : l ≠ []) :
    ∃ d, listMin l = some d := by
  cases l with
  | nil => exact absurd rfl h
  | cons a t =>
      rw [listMin]
      cases listMin t with
      | none => exact ⟨a, rfl⟩
      | some m => exact ⟨min a m, rfl⟩

/-- C5: given the (nonempty) eigenvalue list of the state matrix As, the
stability analyzer returns exactly the minimum over the eigenvalues λ of
As of the quantity −2/λ. -/
theorem dtmax_spec {m : ℕ} (As : Matrix (Fin m) (Fin m) ℝ) (eigs : List ℝ)
    (hne : eigs ≠ []) (hiff : ∀ x, x ∈ eigs ↔ IsEigenvalue As x) :
    ∃ d, dtmax eigs = some d ∧
      (∃ lam, IsEigenvalue As lam ∧ d = -2 / lam) ∧
      ∀ lam, IsEigenvalue As lam → d ≤ -2 / lam := by
  have hne2 : eigs.map (fun lam => -2 / lam) ≠ [] := by
    simpa using hne
  obtain ⟨d, hd⟩ := listMin_isSome hne2
  refine ⟨d, hd, ?_, ?_⟩
  · obtain ⟨lam, hlam, hdl⟩ := List.mem_map.mp (listMin_mem hd)
    exact ⟨lam, (hiff lam).mp hlam, hdl.symm⟩
  · intro lam hl
    exact listMin_le hd _ (List.mem_map_of_mem _ ((hiff lam).mpr hl))

/-- The matrix used to witness C5: a single-state system with eigenvalue
−2, whose admissible explicit-Euler step is −2/(−2) = 1. -/
def eigAsW : Matrix (Fin 1) (Fin 1) ℝ := !![-2]

/-- Eigenvalue computation backing the C5 witness: the 1×1 matrix [[−2]]
has exactly the eigenvalue −2. -/
theorem eigAsW_eigs : ∀ x : ℝ, x ∈ [(-2 : ℝ)] ↔ IsEigenvalue eigAsW x := by
  intro x
  constructor
  · intro hx
    rcases List.mem_singleton.mp hx with rfl
    refine ⟨fun _ => 1, ?_, ?_⟩
    · intro h
      have h0 : (1 : ℝ) = 0 := congrFun h 0
      norm_num at h0
    · funext i
      fin_cases i
      simp [eigAsW, Matrix.mulVec, dotProduct]
  · rintro ⟨v, hv, hMv⟩
    have hv0 : v 0 ≠ 0 := by
      intro h0
      exact hv (funext fun i => by fin_cases i; exact h0)
    have h1 : -2 * v 0 = x * v 0 := by
      have := congrFun hMv 0
      simpa [eigAsW, Matrix.mulVec, dotProduct] using this
    have : (-2 : ℝ) = x := mul_right_cancel₀ hv0 h1
    simp [this.symm]

/-- Witness for C5 at the single-state system [[−2]]: the analyzer returns
some value which is −2/λ for an eigenvalue λ, and is minimal. -/
theorem dtmax_spec_witness :
    (([(-2 : ℝ)] : List ℝ) ≠ [] ∧ (∀ x : ℝ, x ∈ [(-2 : ℝ)] ↔ IsEigenvalue eigAsW x)) ∧
      ∃ d, dtmax [(-2 : ℝ)] = some d ∧
        (∃ lam, IsEigenvalue eigAsW lam ∧ d = -2 / lam) ∧
        ∀ lam, IsEigenvalue eigAsW lam → d ≤ -2 / lam := by
  have h1 : ([(-2 : ℝ)] : List ℝ) ≠ [] := by simp
  exact ⟨⟨h1, eigAsW_eigs⟩, dtmax_spec eigAsW [(-2 : ℝ)] h1 eigAsW_eigs⟩

/-- Exact values of the twelve assembled conductances. -/
theorem gdiag_eval :
    T03.gDiag = ![1125, 630, 630, 243/8, 243/8, 19639022161563/438500000000,
      360, 72, 6300/29, 6300, 9, 0] := by
  funext k
  fin_cases k <;>
    norm_num [T03.gDiag, T03.GwOut, T03.hOut, T03.surfConcrete, T03.lcube,
      T03.GcdConcrete, T03.condConcrete, T03.widthConcrete,
      T03.GcdInsulation, T03.condInsulation, T03.widthInsulation,
      T03.surfInsulation, T03.GLW, T03.GLW1, T03.GLW12, T03.GLW2,
      T03.sigmaSB, T03.Tm, T03.epsWLW, T03.epsGLW, T03.Fwg, T03.surfGlass,
      T03.GwIn, T03.hIn, T03.GgIn, T03.Ggs, T03.GgOut, T03.GcdGlass,
      T03.condGlass, T03.widthGlass, T03.Gv, T03.airDensity,
      T03.airSpecificHeat, T03.VaDot, T03.ACH, T03.Va, T03.Kp]

theorem gdiag_nonneg : ∀ k : Fin 12, 0 ≤ T03.gDiag k := by
  intro k
  rw [gdiag_eval]
  fin_cases k <;> norm_num

theorem gdiag_pos : ∀ k : Fin 12, k.val ≤ 10 → 0 < T03.gDiag k := by
  intro k
  fin_cases k <;> intro hk <;> rw [gdiag_eval] <;> norm_num
  simp at hk

theorem vec8_at5 {α : Type} (a b c d e f g h : α) : ![a, b, c, d, e, f, g, h] (5 : Fin 8) = f := rfl

theorem vec8_at6 {α : Type} (a b c d e f g h : α) : ![a, b, c, d, e, f, g, h] (6 : Fin 8) = g := rfl

theorem vec8_at7 {α : Type} (a b c d e f g h : α) : ![a, b, c, d, e, f, g, h] (7 : Fin 8) = h := rfl

theorem vec12_at5 {α : Type} (a b c d e f g h i j k l : α) :
    ![a, b, c, d, e, f, g, h, i, j, k, l] (5 : Fin 12) = f := rfl

theorem vec12_at6 {α : Type} (a b c d e f g h i j k l : α) :
    ![a, b, c, d, e, f, g, h, i, j, k, l] (6 : Fin 12) = g := rfl

theorem vec12_at7 {α : Type} (a b c d e f g h i j k l : α) :
    ![a, b, c, d, e, f, g, h, i, j, k, l] (7 : Fin 12) = h := rfl

theorem vec12_at8 {α : Type} (a b c d e f g h i j k l : α) :
    ![a, b, c, d, e, f, g, h, i, j, k, l] (8 : Fin 12) = i := rfl

theorem vec12_at9 {α : Type} (a b c d e f g h i j k l : α) :
    ![a, b, c, d, e, f, g, h, i, j, k, l] (9 : Fin 12) = j := rfl

theorem vec12_at10 {α : Type} (a b c d e f g h i j k l : α) :
    ![a, b, c, d, e, f, g, h, i, j, k, l] (10 : Fin 12) = k := rfl

theorem vec12_at11 {α : Type} (a b c d e f g h i j k l : α) :
    ![a, b, c, d, e, f, g, h, i, j, k, l] (11 : Fin 12) = l := rfl

/-- Expansion of the dot product of a literal 8-vector with a symbolic
vector. -/
theorem dotProduct_vec8 (a b c d e f g h : ℚ) (v : Fin 8 → ℚ) :
    Matrix.dotProduct ![a, b, c, d, e, f, g, h] v =
      a * v 0 + b * v 1 + c * v 2 + d * v 3 + e * v 4 + f * v 5 + g * v 6 + h * v 7 := by
  simp [Matrix.dotProduct, Fin.sum_univ_eight, vec8_at5, vec8_at6, vec8_at7]

/-- The assembled Laplacian Aᵀ·G·A of the cube network is nonsingular:
its quadratic form is Σ g_k (A·v)_k², the branches 0–8 carry strictly
positive conductance, and their rows of A pin every node to the
boundary. -/
theorem cube_det_ne_zero : (T03.Aᵀ * T03.G * T03.A).det ≠ 0 := by
  intro hdet
  obtain ⟨v, hv, hMv⟩ := Matrix.exists_mulVec_eq_zero_iff.mpr hdet
  have hquad : ∑ k : Fin 12, (T03.A *ᵥ v) k * (T03.gDiag k * (T03.A *ᵥ v) k) = 0 := by
    have h1 : v ⬝ᵥ ((T03.Aᵀ * T03.G * T03.A) *ᵥ v) = 0 := by
      rw [hMv, Matrix.dotProduct_zero]
    rw [Matrix.mul_assoc, ← Matrix.mulVec_mulVec, ← Matrix.mulVec_mulVec,
      Matrix.dotProduct_mulVec, Matrix.vecMul_transpose] at h1
    calc ∑ k : Fin 12, (T03.A *ᵥ v) k * (T03.gDiag k * (T03.A *ᵥ v) k)
        = (T03.A *ᵥ v) ⬝ᵥ (T03.G *ᵥ (T03.A *ᵥ v)) := by
          simp [dotProduct, T03.G, Matrix.mulVec_diagonal]
      _ = 0 := h1
  have hterm : ∀ k ∈ Finset.univ, 0 ≤ (T03.A *ᵥ v) k * (T03.gDiag k * (T03.A *ᵥ v) k) := by
    intro k _
    have hrw : (T03.A *ᵥ v) k * (T03.gDiag k * (T03.A *ᵥ v) k)
        = T03.gDiag k * ((T03.A *ᵥ v) k * (T03.A *ᵥ v) k) := by ring
    rw [hrw]
    exact mul_nonneg (gdiag_nonneg k) (mul_self_nonneg _)
  have hzero := (Finset.sum_eq_zero_iff_of_nonneg hterm).mp hquad
  have hwk : ∀ k : Fin 12, k.val ≤ 10 → (T03.A *ᵥ v) k = 0 := by
    intro k hk
    have h := hzero k (Finset.mem_univ k)
    rcases mul_eq_zero.mp h with h1 | h2
    · exact h1
    · rcases mul_eq_zero.mp h2 with h3 | h4
      · exact absurd h3 (ne_of_gt (gdiag_pos k hk))
      · exact h4
  have e0 : T03.A 0 ⬝ᵥ v = 0 := hwk 0 (by decide)
  have e1 : T03.A 1 ⬝ᵥ v = 0 := hwk 1 (by decide)
  have e2 : T03.A 2 ⬝ᵥ v = 0 := hwk 2 (by decide)
  have e3 : T03.A 3 ⬝ᵥ v = 0 := hwk 3 (by decide)
  have e4 : T03.A 4 ⬝ᵥ v = 0 := hwk 4 (by decide)
  have e5 : T03.A 5 ⬝ᵥ v = 0 := hwk 5 (by decide)
  have e6 : T03.A 6 ⬝ᵥ v = 0 := hwk 6 (by decide)
  have e7 : T03.A 7 ⬝ᵥ v = 0 := hwk 7 (by decide)
  have e8 : T03.A 8 ⬝ᵥ v = 0 := hwk 8 (by decide)
  have r0 : T03.A 0 = ![1, 0, 0, 0, 0, 0, 0, 0] := by decide
  have r1 : T03.A 1 = ![-1, 1, 0, 0, 0, 0, 0, 0] := by decide
  have r2 : T03.A 2 = ![0, -1, 1, 0, 0, 0, 0, 0] := by decide
  have r3 : T03.A 3 = ![0, 0, -1, 1, 0, 0, 0, 0] := by decide
  have r4 : T03.A 4 = ![0, 0, 0, -1, 1, 0, 0, 0] := by decide
  have r5 : T03.A 5 = ![0, 0, 0, 0, -1, 1, 0, 0] := by decide
  have r6 : T03.A 6 = ![0, 0, 0, 0, -1, 0, 1, 0] := by decide
  have r7 : T03.A 7 = ![0, 0, 0, 0, 0, -1, 1, 0] := by decide
  have r8 : T03.A 8 = ![0, 0, 0, 0, 0, 0, 0, 1] := by decide
  rw [r0, dotProduct_vec8] at e0
  rw [r1, dotProduct_vec8] at e1
  rw [r2, dotProduct_vec8] at e2
  rw [r3, dotProduct_vec8] at e3
  rw [r4, dotProduct_vec8] at e4
  rw [r5, dotProduct_vec8] at e5
  rw [r6, dotProduct_vec8] at e6
  rw [r7, dotProduct_vec8] at e7
  rw [r8, dotProduct_vec8] at e8
  have q0 : v 0 = 0 := by linarith
  have q1 : v 1 = 0 := by linarith
  have q2 : v 2 = 0 := by linarith
  have q3 : v 3 = 0 := by linarith
  have q4 : v 4 = 0 := by linarith
  have q5 : v 5 = 0 := by linarith
  have q6 : v 6 = 0 := by linarith
  have q7 : v 7 = 0 := by linarith
  apply hv
  funext i
  fin_cases i
  · exact q0
  · exact q1
  · exact q2
  · exact q3
  · exact q4
  · exact q5
  · exact q6
  · exact q7

/-- C6 counterexample: branch 11 carries the controller gain Kp = 0, so
the diagonal entry G[11,11] of the assembled conductance matrix is not
strictly positive, refuting the claim as stated. -/
theorem conductance_kp_not_pos : ¬ (0 < T03.G 11 11) := by decide

/-- C6 amended: every diagonal entry of the assembled G is nonnegative
and finite, entries of branches 0–10 are strictly positive, and the entry
of branch 11 equals the controller gain Kp, which the script sets to 0. -/
theorem conductance_diag_amended :
    (∀ k : Fin 12, 0 ≤ T03.G k k) ∧ (∀ k : Fin 12, k.val ≤ 10 → 0 < T03.G k k) ∧
      T03.G 11 11 = T03.Kp ∧ T03.Kp = 0 := by
  have hgk : ∀ k : Fin 12, T03.G k k = T03.gDiag k := by
    intro k
    simp [T03.G, Matrix.diagonal_apply_eq]
  refine ⟨fun k => ?_, fun k hk => ?_, by decide, rfl⟩
  · rw [hgk k]; exact gdiag_nonneg k
  · rw [hgk k]; exact gdiag_pos k hk

/-- Witness for the amended C6 at branch 5 (the long-wave radiative
conductance). -/
theorem conductance_diag_amended_witness :
    (5 : Fin 12).val ≤ 10 ∧ 0 < T03.G 5 5 :=
  ⟨by decide, conductance_diag_amended.2.1 5 (by decide)⟩

/-- C7: every row of the assembled incidence matrix holds at most one +1
and at most one −1 with all other entries 0, and the rows with a single
nonzero entry are exactly 0, 8, 10 and 11 (the source/boundary
branches). -/
theorem incidence_rows :
    (∀ i : Fin 12, (Finset.univ.filter (fun j => T03.A i j = 1)).card ≤ 1 ∧
       (Finset.univ.filter (fun j => T03.A i j = -1)).card ≤ 1 ∧
       ∀ j, T03.A i j = 0 ∨ T03.A i j = 1 ∨ T03.A i j = -1) ∧
    (∀ i : Fin 12,
      (Finset.univ.filter (fun j => T03.A i j ≠ 0)).card = 1 ↔
        (i = 0 ∨ i = 8 ∨ i = 10 ∨ i = 11)) := by
  decide

/-- The steady-state source vector decomposes into the tsp = 20 vector
plus a multiple of the branch-11 unit vector. -/
theorem bss_decomp (x : ℚ) :
    T03.bss x = T03.bss 20 +
      (x - 20) • (Pi.single (11 : Fin 12) (1 : ℚ) : Fin 12 → ℚ) := by
  funext j
  fin_cases j <;>
    simp [T03.bss, Pi.single_apply, vec12_at5, vec12_at6, vec12_at7,
      vec12_at8, vec12_at9, vec12_at10, vec12_at11]

/-- Column 11 of Aᵀ·G vanishes because branch 11 has conductance Kp = 0. -/
theorem colG_11 :
    (T03.Aᵀ * T03.G) *ᵥ (Pi.single (11 : Fin 12) (1 : ℚ) : Fin 12 → ℚ) = 0 := by
  have g11 : T03.gDiag 11 = 0 := by decide
  rw [Matrix.mulVec_single]
  funext i
  simp [T03.G, Matrix.mul_diagonal, g11]

/-- With Kp = 0 the right-hand side Aᵀ·G·b + f of the steady-state solve
does not depend on the set-point entry b[11]. -/
theorem rhs_indep (x : ℚ) :
    (T03.Aᵀ * T03.G) *ᵥ T03.bss x + T03.fss =
      (T03.Aᵀ * T03.G) *ᵥ T03.bss 20 + T03.fss := by
  rw [bss_decomp x, Matrix.mulVec_add, Matrix.mulVec_smul, colG_11]
  simp

/-- C10: with Kp = 0 the steady-state temperature vector is independent
of the indoor set-point value b[11] — any set-point x gives the same
result as the value 20 used by the script — and the solve stays well-posed (some result,
no SingularTopologyError), since the Laplacian is nonsingular. -/
theorem setpoint_independence :
    ∀ x : ℚ, solveSteady T03.A T03.G (T03.bss x) T03.fss =
        solveSteady T03.A T03.G (T03.bss 20) T03.fss ∧
      ∃ th, solveSteady T03.A T03.G (T03.bss 20) T03.fss = some th := by
  intro x
  constructor
  · simp only [solveSteady]
    rw [rhs_indep x]
  · rw [solveSteady, if_neg cube_det_ne_zero]
    exact ⟨_, rfl⟩

/-- C1: in the steady-state check the script builds u from the nonzero
entries of b and f; f is all-zero there, so u has length 4 while the
reduced model has 8 inputs — the product (−Cs·As⁻¹·Bs + Ds)·u is
dimensionally ill-formed (numpy raises a ValueError), so the claimed
output equality cannot hold as coded. -/
theorem uss_nInputs_mismatch :
    T03.uss.length = 4 ∧ T03.nInputs = 8 ∧ T03.uss.length ≠ T03.nInputs := by
  decide

/-- C8: the u of the steady-state check equals [10, 10, 10, 20] — the four
zero flow sources are dropped by the nonzero-entry selection, so u is not
the documented [b0, b8, b10, b11, f0, f4, f6, f7] vector — while the
dynamic-simulation input does follow the documented 8-entry order
[To, To, To, Tsp, Φo, Φi, Qa, Φa]. -/
theorem uss_value_order :
    T03.uss = [10, 10, 10, 20] ∧ T03.uss ≠ [10, 10, 10, 20, 0, 0, 0, 0] ∧
      ∀ (To Phit1 : ℕ → ℚ) (k : ℕ),
        T03.uDyn To Phit1 k =
          ![To k, To k, To k, 20, (45 / 4) * Phit1 k, (27 / 40) * Phit1 k, 0,
            (171 / 50) * Phit1 k] := by
  refine ⟨by decide, by decide, ?_⟩
  intro To Phit1 k
  funext i
  fin_cases i <;>
    norm_num [T03.uDyn, T03.Tset, T03.Qaux, T03.alphaWSW, T03.alphaGSW,
      T03.tauGSW, T03.surfConcrete, T03.surfGlass, T03.lcube]
